import Mathlib

/-!
Verification of the overlapnanny outline-roughness checker.

The development shallowly embeds the three source files:

* `wonkiness.rs` — the roughness ("wonkiness") metric over the segments of
  one subpath.  Segment geometry (tangent, curvature, quadrature arclength)
  is provided by the external kurbo library, so a segment is embedded as the
  record of those observables over exact reals (`Seg`); the metric itself
  (degenerate-segment filter, pair formation, per-junction contribution,
  summation) is translated line by line.
* `main.rs` — the comparison pipeline `compare_glyph` and the printing
  filter in `test_font`, over exact rationals (an idealisation of `f32`
  arithmetic), plus a second model `Flt` that keeps the IEEE special values
  (`inf`, `-inf`, `nan`) so that the division-by-zero path of
  `compare_glyph` can be examined faithfully.  The per-glyph control flow of
  `test_font` (composite skip, `.expect` panic on unresolvable glyph data)
  is embedded as a step function over resolution outcomes.
* `bezpen.rs` — the skia verb/point buffer walker `skia_path_to_bezpath`
  and the `remove_overlaps` fallback.  The skia backend itself is external
  and is passed in as an optional result.
-/

/-! ## Comparison pipeline (`main.rs`, exact-rational idealisation) -/

/-- Body of `compare_glyph` (main.rs lines 142-146): if the after-score
exceeds the before-score scaled by `1 + tolerance`, return the percentage
increase, else return 0.  `f32` arithmetic is idealised as exact `ℚ`. -/
def compare_glyph_result (before after tolerance : ℚ) : ℚ :=
  if after > before * (1 + tolerance) then (after / before - 1) * 100 else 0

/-- Printing condition of `test_font` (main.rs line 117): a flagged-glyph
line is printed iff `comparison > 0.0 && comparison < 1000.0`. -/
def test_font_prints (comparison : ℚ) : Bool :=
  decide (comparison > 0) && decide (comparison < 1000)

/-! ## Comparison pipeline with IEEE special values

`compare_glyph` divides by `total_wonkiness_before`; when that is `0.0` the
Rust `f32` division produces `inf` rather than trapping.  `Flt` models an
`f32` value as an exact rational or one of the special values, with the
IEEE-754 rules for the operations `compare_glyph` and `test_font` use
(multiplication, subtraction, division, ordered comparison; comparisons
involving `nan` are false). -/

inductive Flt where
  | fin : ℚ → Flt
  | inf : Flt
  | ninf : Flt
  | nan : Flt
deriving DecidableEq

/-- IEEE multiplication on `Flt`. -/
def Flt.mul : Flt → Flt → Flt
  | nan, _ => nan
  | _, nan => nan
  | fin a, fin b => fin (a * b)
  | fin a, inf => if 0 < a then inf else if a < 0 then ninf else nan
  | fin a, ninf => if 0 < a then ninf else if a < 0 then inf else nan
  | inf, fin b => if 0 < b then inf else if b < 0 then ninf else nan
  | ninf, fin b => if 0 < b then ninf else if b < 0 then inf else nan
  | inf, inf => inf
  | inf, ninf => ninf
  | ninf, inf => ninf
  | ninf, ninf => inf

/-- IEEE division on `Flt`; a positive finite value divided by (positive)
zero is `inf`. -/
def Flt.div : Flt → Flt → Flt
  | nan, _ => nan
  | _, nan => nan
  | fin a, fin b =>
      if b = 0 then (if a = 0 then nan else if 0 < a then inf else ninf)
      else fin (a / b)
  | fin _, inf => fin 0
  | fin _, ninf => fin 0
  | inf, fin b => if 0 ≤ b then inf else ninf
  | ninf, fin b => if 0 ≤ b then ninf else inf
  | inf, inf => nan
  | inf, ninf => nan
  | ninf, inf => nan
  | ninf, ninf => nan

/-- IEEE subtraction on `Flt`. -/
def Flt.sub : Flt → Flt → Flt
  | nan, _ => nan
  | _, nan => nan
  | fin a, fin b => fin (a - b)
  | inf, fin _ => inf
  | ninf, fin _ => ninf
  | fin _, inf => ninf
  | fin _, ninf => inf
  | inf, inf => nan
  | ninf, ninf => nan
  | inf, ninf => inf
  | ninf, inf => ninf

/-- IEEE ordered greater-than on `Flt`; any comparison with `nan` is false. -/
def Flt.gt : Flt → Flt → Bool
  | nan, _ => false
  | _, nan => false
  | fin a, fin b => decide (b < a)
  | inf, fin _ => true
  | inf, inf => false
  | inf, ninf => true
  | ninf, _ => false
  | fin _, inf => false
  | fin _, ninf => true

/-- IEEE ordered less-than on `Flt`. -/
def Flt.lt (a b : Flt) : Bool := Flt.gt b a

/-- `compare_glyph` (main.rs lines 142-146) over `Flt` values, keeping the
IEEE special values produced by the division. -/
def compare_glyph_flt (before after : Flt) (tolerance : ℚ) : Flt :=
  if Flt.gt after (Flt.mul before (Flt.fin (1 + tolerance))) then
    Flt.mul (Flt.sub (Flt.div after before) (Flt.fin 1)) (Flt.fin 100)
  else Flt.fin 0

/-- Printing condition of `test_font` over `Flt` values. -/
def test_font_prints_flt (comparison : Flt) : Bool :=
  Flt.gt comparison (Flt.fin 0) && Flt.lt comparison (Flt.fin 1000)

/-! ## Per-glyph control flow of `test_font` (main.rs lines 101-123)

For each glyph the loop resolves the glyph's contour data
(`get_glyf(..).expect("Couldn't read a glyph")`): an `Err` makes the
whole process panic; `Some(Glyph::Composite(_))` is skipped with
`continue`; anything else proceeds to the comparison.  The glyph-name
allow-list `continue` is independent of error handling and is elided. -/

inductive GlyphData where
  | simple : GlyphData
  | composite : GlyphData
deriving DecidableEq

inductive StepResult where
  | aborted : StepResult
  | skipped : StepResult
  | checked : StepResult
deriving DecidableEq

/-- Outcome of the body of the `test_font` loop for one glyph, given the
result of resolving its contour data.  `.expect` on an `Err` panics, which
is modelled as `aborted`. -/
def glyph_step : Except Unit (Option GlyphData) → StepResult
  | .error _ => .aborted
  | .ok (some .composite) => .skipped
  | .ok _ => .checked

/-- The `test_font` loop over a list of per-glyph resolution results.  A
panic (`aborted`) terminates the whole run; otherwise processing continues
with the next glyph. -/
def test_font_run : List (Except Unit (Option GlyphData)) → List StepResult
  | [] => []
  | g :: gs =>
      if glyph_step g = StepResult.aborted then [StepResult.aborted]
      else glyph_step g :: test_font_run gs

/-! ## Skia path reconstruction and fallback (`bezpen.rs`) -/

inductive PathEl where
  | moveTo : ℚ × ℚ → PathEl
  | lineTo : ℚ × ℚ → PathEl
  | quadTo : ℚ × ℚ → ℚ × ℚ → PathEl
  | curveTo : ℚ × ℚ → ℚ × ℚ → ℚ × ℚ → PathEl
  | closePath : PathEl
deriving DecidableEq

/-- A kurbo `BezPath` is its element list; coordinates are idealised as
exact rationals. -/
abbrev BezPath := List PathEl

/-- The skia backend's representation: a flat point buffer plus a parallel
verb buffer. -/
structure SkiaPath where
  verbs : List ℕ
  points : List (ℚ × ℚ)

/-- The verb loop of `skia_path_to_bezpath` (bezpen.rs lines 71-102):
walks the verb buffer, reading points at a running index `i` and advancing
it by the number of points each recognised verb consumes; unrecognised
verbs fall to the `_ => {}` arm, emitting nothing and leaving `i`
unchanged.  Out-of-range reads (impossible for well-formed skia buffers)
default to the origin. -/
def skiaWalk (points : List (ℚ × ℚ)) : List ℕ → ℕ → List PathEl
  | [], _ => []
  | v :: vs, i =>
      if v = 0 then PathEl.moveTo (points.getD i (0, 0)) :: skiaWalk points vs (i + 1)
      else if v = 1 then PathEl.lineTo (points.getD i (0, 0)) :: skiaWalk points vs (i + 1)
      else if v = 2 then
        PathEl.quadTo (points.getD i (0, 0)) (points.getD (i + 1) (0, 0)) ::
          skiaWalk points vs (i + 2)
      else if v = 4 then
        PathEl.curveTo (points.getD i (0, 0)) (points.getD (i + 1) (0, 0))
            (points.getD (i + 2) (0, 0)) ::
          skiaWalk points vs (i + 3)
      else if v = 5 then PathEl.closePath :: skiaWalk points vs i
      else skiaWalk points vs i

/-- `skia_path_to_bezpath` (bezpen.rs lines 61-104). -/
def skia_path_to_bezpath (p : SkiaPath) : BezPath := skiaWalk p.points p.verbs 0

/-- Points consumed per verb by `skiaWalk` (1 for move/line, 2 for quad,
3 for cubic, 0 for close and for every unrecognised verb). -/
def consumed (v : ℕ) : ℕ :=
  if v = 0 then 1 else if v = 1 then 1 else if v = 2 then 2
  else if v = 4 then 3 else 0

/-- Total number of points a verb list consumes. -/
def totalConsumed : List ℕ → ℕ
  | [] => 0
  | v :: vs => consumed v + totalConsumed vs

/-- `remove_overlaps` (bezpen.rs lines 118-130): the external
`skia_safe::simplify` call is passed in as `backendResult`; its result is
converted back, and `unwrap_or` falls back to a copy of the original path
when the backend produced nothing. -/
def remove_overlaps (orig : BezPath) (backendResult : Option SkiaPath) : BezPath :=
  (backendResult.map skia_path_to_bezpath).getD orig

/-! ## Roughness metric (`wonkiness.rs`)

`wonkiness` consumes a subpath's kurbo `PathSeg`s only through three
observables: the tangent (velocity) vector at a parameter, the signed
curvature at a parameter, and the quadrature arclength `seg.arclen(0.1)`.
Those are external kurbo library functions, so a segment is embedded as the
record of exactly those observables over exact reals (`f64` idealised as
`ℝ`, the quadrature arclength idealised as a single real). -/

noncomputable section

/-- A path segment, as observed by `wonkiness`: tangent and curvature as
functions of the parameter in [0,1], and the arclength value
`seg.arclen(0.1)`. -/
structure Seg where
  tangent : ℝ → ℝ × ℝ
  curvature : ℝ → ℝ
  arclen : ℝ

instance : Inhabited Seg := ⟨⟨fun _ => (0, 0), fun _ => 0, 0⟩⟩

/-- Dot product of kurbo `Vec2`s. -/
def vdot (v w : ℝ × ℝ) : ℝ := v.1 * w.1 + v.2 * w.2

/-- Euclidean length of a kurbo `Vec2`. -/
def vlength (v : ℝ × ℝ) : ℝ := Real.sqrt (v.1 ^ 2 + v.2 ^ 2)

/-- The helper `angle_between` (wonkiness.rs lines 12-15): inverse cosine
of the normalised dot product. -/
def angle_between (v1 v2 : ℝ × ℝ) : ℝ :=
  Real.arccos (vdot v1 v2 / (vlength v1 * vlength v2))

/-- The angle computed at a junction (wonkiness.rs line 71):
`angle_between(out_tangent, in_tangent)` with the incoming tangent sampled
at t=0.95 and the outgoing tangent at t=0.05. -/
def junction_angle (seg next_seg : Seg) : ℝ :=
  angle_between (next_seg.tangent 0.05) (seg.tangent 0.95)

/-- `curvaturediff` (wonkiness.rs line 62). -/
def curvature_diff (seg next_seg : Seg) : ℝ :=
  |seg.curvature 0.95 - next_seg.curvature 0.05|

/-- `anglediff` (wonkiness.rs line 72): distance from the junction angle to
its nearest multiple of pi/2.  Rust `f64::round` rounds half away from
zero; the argument is nonnegative (`arccos` lands in [0, pi]), where that
agrees with Mathlib's half-up `round`. -/
def angle_diff (seg next_seg : Seg) : ℝ :=
  |junction_angle seg next_seg -
    ((round (junction_angle seg next_seg / (Real.pi / 2)) : ℤ) : ℝ) * (Real.pi / 2)|

/-- `contribution` (wonkiness.rs line 74). -/
def contribution (seg next_seg : Seg) : ℝ :=
  (1 + curvature_diff seg next_seg) *
    (angle_diff seg next_seg / (seg.arclen + next_seg.arclen))

/-- The degenerate-segment filter (wonkiness.rs lines 43-46):
`filter(|seg| seg.arclen(0.1) > 0.0)`. -/
def nondegenerate (segs : List Seg) : List Seg :=
  segs.filter fun s => decide (0 < s.arclen)

/-- Pair formation (wonkiness.rs lines 48-52).  For a closed subpath the
Rust code zips the segments with `cycle().skip(1)`, pairing segment `i`
with segment `(i+1) mod n` — one pair per segment, which is zipping with
the list rotated by one (both are empty when the list is empty).  For an
open subpath it zips with `skip(1)`, i.e. with the tail. -/
def pairList (isClosed : Bool) (segs : List Seg) : List (Seg × Seg) :=
  if isClosed then segs.zip (segs.rotate 1) else segs.zip segs.tail

/-- `wonkiness` (wonkiness.rs lines 35-87) for one subpath, given whether
its element list ends in a `ClosePath` and its segment list: filter out
degenerate segments, form adjacent pairs, and accumulate the
contributions. -/
def wonkiness (isClosed : Bool) (segs : List Seg) : ℝ :=
  ((pairList isClosed (nondegenerate segs)).map fun p => contribution p.1 p.2).sum

/-! ### Spec-side restatement of the metric (for claim C1)

These definitions follow the wording of the specification (section 4.2 and
claim C1), not the source: the score is an indexed sum over adjacent
segment pairs — cyclic with one pair per segment when closed, one fewer
pair than segments when open. -/

/-- Spec wording: the inverse-cosine angle between the incoming tangent at
t=0.95 and the outgoing tangent at t=0.05. -/
def specAngle (incoming outgoing : Seg) : ℝ :=
  Real.arccos (vdot (incoming.tangent 0.95) (outgoing.tangent 0.05) /
    (vlength (incoming.tangent 0.95) * vlength (outgoing.tangent 0.05)))

/-- Spec wording: absolute difference between that angle and its nearest
multiple of pi/2. -/
def specAngularDeviation (incoming outgoing : Seg) : ℝ :=
  |specAngle incoming outgoing -
    ((round (specAngle incoming outgoing / (Real.pi / 2)) : ℤ) : ℝ) * (Real.pi / 2)|

/-- Spec wording: (1 + curvature difference) × (angular deviation / sum of
the two arclengths). -/
def specPairScore (incoming outgoing : Seg) : ℝ :=
  (1 + |incoming.curvature 0.95 - outgoing.curvature 0.05|) *
    (specAngularDeviation incoming outgoing / (incoming.arclen + outgoing.arclen))

/-- Spec wording of the whole per-subpath score: after discarding
zero-arclength segments, sum the pair scores over cyclic adjacent indices
(closed) or successor indices (open). -/
def specRoughness (isClosed : Bool) (segs : List Seg) : ℝ :=
  if isClosed then
    ((List.range (nondegenerate segs).length).map fun i =>
        specPairScore ((nondegenerate segs).getD i default)
          ((nondegenerate segs).getD ((i + 1) % (nondegenerate segs).length) default)).sum
  else
    ((List.range ((nondegenerate segs).length - 1)).map fun i =>
        specPairScore ((nondegenerate segs).getD i default)
          ((nondegenerate segs).getD (i + 1) default)).sum

/-- Image of a segment's observables under uniform coordinate scaling by
`k`: the velocity scales by `k`, the signed curvature by `1/k`, and the
arclength by `k` (the standard behaviour of a Bezier segment whose control
points are all scaled by `k`). -/
def scaleSeg (k : ℝ) (s : Seg) : Seg :=
  ⟨fun t => (k * (s.tangent t).1, k * (s.tangent t).2),
   fun t => s.curvature t / k, k * s.arclen⟩

/-- Concrete segment used as a counterexample carrier: unit arclength,
zero curvature at the sample points, tangent pointing along (1,1) near the
start and along (1,0) near the end (the observable signature of a single
closed loop segment, e.g. a cubic returning to its start point). -/
def cexSeg : Seg :=
  ⟨fun t => if t ≤ 1 / 2 then (1, 1) else (1, 0), fun _ => 0, 1⟩

/-- Concrete straight unit segment heading along (1,0). -/
def segA : Seg := ⟨fun _ => (1, 0), fun _ => 0, 1⟩

/-- Concrete unit segment heading along (1,1). -/
def segB : Seg := ⟨fun _ => (1, 1), fun _ => 0, 1⟩

/-- Concrete unit segment heading along (0,1), perpendicular to `segA`. -/
def segPerp : Seg := ⟨fun _ => (0, 1), fun _ => 0, 1⟩

end

/-! ## Theorems -/

/-- Helper: appending verb buffers shifts the point index of the second
part by exactly the points the first part consumes. -/
theorem skiaWalk_append (pts : List (ℚ × ℚ)) (vs₁ vs₂ : List ℕ) (i : ℕ) :
    skiaWalk pts (vs₁ ++ vs₂) i =
      skiaWalk pts vs₁ i ++ skiaWalk pts vs₂ (i + totalConsumed vs₁) := by
  induction vs₁ generalizing i with
  | nil => simp [skiaWalk, totalConsumed]
  | cons v vs ih =>
    by_cases h0 : v = 0
    · subst h0
      simp [skiaWalk, ih, totalConsumed, consumed, Nat.add_assoc]
    · by_cases h1 : v = 1
      · subst h1
        simp [skiaWalk, ih, totalConsumed, consumed, Nat.add_assoc]
      · by_cases h2 : v = 2
        · subst h2
          simp [skiaWalk, ih, totalConsumed, consumed, Nat.add_assoc]
        · by_cases h4 : v = 4
          · subst h4
            simp [skiaWalk, ih, totalConsumed, consumed, Nat.add_assoc]
          · by_cases h5 : v = 5
            · subst h5
              simp [skiaWalk, ih, totalConsumed, consumed, Nat.add_assoc]
            · simp [skiaWalk, ih, totalConsumed, consumed, h0, h1, h2, h4, h5]

/-- Claim C2: for every before/after score pair and tolerance ratio
r ≥ 0, `compare_glyph` returns the percentage increase
(after/before − 1)·100 exactly when after > before·(1+r) and 0 otherwise;
in particular before=10, after=11, r=1/4 yields 0 and before=10, after=13,
r=1/4 yields 30. -/
theorem compare_glyph_result_correct (before after r : ℚ) (hr : 0 ≤ r) :
    (after > before * (1 + r) →
      compare_glyph_result before after r = (after / before - 1) * 100) ∧
    (¬ after > before * (1 + r) → compare_glyph_result before after r = 0) ∧
    compare_glyph_result 10 11 (1 / 4) = 0 ∧
    compare_glyph_result 10 13 (1 / 4) = 30 := by
  refine ⟨fun h => if_pos h, fun h => if_neg h, ?_, ?_⟩
  · rw [compare_glyph_result, if_neg (by norm_num)]
  · rw [compare_glyph_result, if_pos (by norm_num)]
    norm_num

/-- Witness for C2 at before=10, after=13, r=1/4. -/
theorem compare_glyph_result_correct_witness :
    compare_glyph_result 10 13 (1 / 4) = 30 :=
  (compare_glyph_result_correct 10 13 (1 / 4) (by norm_num)).2.2.2

/-- Claim C8: `test_font` prints a flagged-glyph line exactly when the
computed increase is strictly between 0% and 1000%; increases of 1000% or
more are suppressed. -/
theorem test_font_prints_iff (before after r : ℚ) :
    (test_font_prints (compare_glyph_result before after r) = true ↔
      0 < compare_glyph_result before after r ∧
        compare_glyph_result before after r < 1000) ∧
    (1000 ≤ compare_glyph_result before after r →
      test_font_prints (compare_glyph_result before after r) = false) := by
  constructor
  · simp [test_font_prints]
  · intro h
    have h2 : ¬ compare_glyph_result before after r < 1000 := not_lt.mpr h
    simp [test_font_prints, h2]

/-- Witness for C8: the 30% increase of the C2 scenario is printed. -/
theorem test_font_prints_iff_witness :
    test_font_prints (compare_glyph_result 10 13 (1 / 4)) = true := by
  apply (test_font_prints_iff 10 13 (1 / 4)).1.mpr
  rw [compare_glyph_result, if_pos (by norm_num)]
  norm_num

/-- Helper: the `compare_glyph` division-by-zero path.  With before = 0
and after > 0, the tolerance test passes for every ratio, the division
yields IEEE inf, and the printing filter rejects the result. -/
theorem flt_before_zero_helper (after r : ℚ) (h : 0 < after) :
    compare_glyph_flt (Flt.fin 0) (Flt.fin after) r = Flt.inf ∧
    test_font_prints_flt (compare_glyph_flt (Flt.fin 0) (Flt.fin after) r) = false := by
  have hcond : Flt.gt (Flt.fin after) (Flt.mul (Flt.fin 0) (Flt.fin (1 + r))) = true := by
    show decide ((0 : ℚ) * (1 + r) < after) = true
    simp only [zero_mul]
    exact decide_eq_true h
  have hdiv : Flt.div (Flt.fin after) (Flt.fin 0) = Flt.inf := by
    show (if (0 : ℚ) = 0 then
        (if after = 0 then Flt.nan else if 0 < after then Flt.inf else Flt.ninf)
      else Flt.fin (after / 0)) = Flt.inf
    rw [if_pos rfl, if_neg (ne_of_gt h), if_pos h]
  have hres : compare_glyph_flt (Flt.fin 0) (Flt.fin after) r = Flt.inf := by
    unfold compare_glyph_flt
    rw [hcond, if_pos rfl, hdiv]
    rfl
  exact ⟨hres, by rw [hres]; rfl⟩

/-- Counterexample to claim C4: with before-roughness exactly 0 and
after-roughness 1 > 0 at tolerance 1/4, the comparison produces the IEEE
value inf and the flagged-glyph line is NOT printed (inf < 1000 is false),
so the glyph is not "always flagged". -/
theorem compare_glyph_flt_not_flagged :
    test_font_prints_flt (compare_glyph_flt (Flt.fin 0) (Flt.fin 1) (1 / 4)) = false :=
  (flt_before_zero_helper 1 (1 / 4) (by norm_num)).2

/-- Claim C4 (amended): when the before-score is exactly 0 and the
after-score is positive, the division by zero produces the unbounded IEEE
value inf (no crash) for every tolerance ratio, and the printing filter
then suppresses the glyph — it is never flagged. -/
theorem compare_glyph_flt_before_zero (after r : ℚ) (h : 0 < after) :
    compare_glyph_flt (Flt.fin 0) (Flt.fin after) r = Flt.inf ∧
    test_font_prints_flt (compare_glyph_flt (Flt.fin 0) (Flt.fin after) r) = false :=
  flt_before_zero_helper after r h

/-- Witness for the amended C4 at after=2, r=0. -/
theorem compare_glyph_flt_before_zero_witness :
    compare_glyph_flt (Flt.fin 0) (Flt.fin 2) 0 = Flt.inf ∧
    test_font_prints_flt (compare_glyph_flt (Flt.fin 0) (Flt.fin 2) 0) = false :=
  compare_glyph_flt_before_zero 2 0 (by norm_num)

/-- Claim C5: when the simplification backend produces no result,
`remove_overlaps` returns a path equal to the original, and the failure
never surfaces as an error (the adapter is a total function). -/
theorem remove_overlaps_backend_none (orig : BezPath) :
    remove_overlaps orig none = orig := rfl

/-- Counterexample to claim C6: a run whose first glyph's contour data
cannot be resolved panics immediately (the `.expect` call), so the second
glyph is never processed — the run does not skip and continue. -/
theorem test_font_run_aborts :
    test_font_run [Except.error (), Except.ok none] = [StepResult.aborted] ∧
    test_font_run [Except.error (), Except.ok none] ≠
      [StepResult.skipped, StepResult.checked] := by
  decide

/-- Claim C6 (amended): a glyph whose contour data cannot be resolved
aborts the whole run via panic; only composite glyphs are skipped with
processing continuing at the next glyph. -/
theorem test_font_run_error_vs_composite (e : Unit)
    (gs : List (Except Unit (Option GlyphData))) :
    test_font_run (Except.error e :: gs) = [StepResult.aborted] ∧
    test_font_run (Except.ok (some GlyphData.composite) :: gs) =
      StepResult.skipped :: test_font_run gs := by
  constructor <;> simp [test_font_run, glyph_step]

/-- Claim C10: the converter consumes 1 point for verbs 0 (move) and 1
(line), 2 for verb 2 (quad), 3 for verb 4 (cubic), 0 for verb 5 (close);
any other verb code is silently skipped consuming zero points, and a
subsequent buffer is read at an index shifted only by the recognised
consumption of what precedes it. -/
theorem skiaWalk_consumption :
    (∀ (pts : List (ℚ × ℚ)) (vs : List ℕ) (i : ℕ),
      skiaWalk pts (0 :: vs) i =
        PathEl.moveTo (pts.getD i (0, 0)) :: skiaWalk pts vs (i + 1)) ∧
    (∀ (pts : List (ℚ × ℚ)) (vs : List ℕ) (i : ℕ),
      skiaWalk pts (1 :: vs) i =
        PathEl.lineTo (pts.getD i (0, 0)) :: skiaWalk pts vs (i + 1)) ∧
    (∀ (pts : List (ℚ × ℚ)) (vs : List ℕ) (i : ℕ),
      skiaWalk pts (2 :: vs) i =
        PathEl.quadTo (pts.getD i (0, 0)) (pts.getD (i + 1) (0, 0)) ::
          skiaWalk pts vs (i + 2)) ∧
    (∀ (pts : List (ℚ × ℚ)) (vs : List ℕ) (i : ℕ),
      skiaWalk pts (4 :: vs) i =
        PathEl.curveTo (pts.getD i (0, 0)) (pts.getD (i + 1) (0, 0))
            (pts.getD (i + 2) (0, 0)) ::
          skiaWalk pts vs (i + 3)) ∧
    (∀ (pts : List (ℚ × ℚ)) (vs : List ℕ) (i : ℕ),
      skiaWalk pts (5 :: vs) i = PathEl.closePath :: skiaWalk pts vs i) ∧
    (∀ v : ℕ, v ≠ 0 → v ≠ 1 → v ≠ 2 → v ≠ 4 → v ≠ 5 →
      ∀ (pts : List (ℚ × ℚ)) (vs : List ℕ) (i : ℕ),
        skiaWalk pts (v :: vs) i = skiaWalk pts vs i) ∧
    (∀ (pts : List (ℚ × ℚ)) (vs₁ vs₂ : List ℕ) (i : ℕ),
      skiaWalk pts (vs₁ ++ vs₂) i =
        skiaWalk pts vs₁ i ++ skiaWalk pts vs₂ (i + totalConsumed vs₁)) := by
  refine ⟨fun _ _ _ => rfl, fun _ _ _ => rfl, fun _ _ _ => rfl, fun _ _ _ => rfl,
    fun _ _ _ => rfl, ?_, skiaWalk_append⟩
  intro v h0 h1 h2 h4 h5 pts vs i
  simp [skiaWalk, h0, h1, h2, h4, h5]

/-- Witness for C10: an unrecognised verb 3 (conic) consumes nothing, so
the following move verb reads the point the conic's own points would have
occupied. -/
theorem skiaWalk_consumption_witness :
    skiaWalk [(1, 2)] [3, 0] 0 = [PathEl.moveTo (1, 2)] := by
  rw [skiaWalk_consumption.2.2.2.2.2.1 3 (by decide) (by decide) (by decide)
    (by decide) (by decide), skiaWalk_consumption.1]
  rfl

/-- Helper: a sum over a zip of two lists is the indexed sum up to the
shorter length. -/
theorem zip_map_sum (f : Seg → Seg → ℝ) (l₁ l₂ : List Seg) :
    ((l₁.zip l₂).map fun p => f p.1 p.2).sum =
      ((List.range (min l₁.length l₂.length)).map fun i =>
        f (l₁.getD i default) (l₂.getD i default)).sum := by
  induction l₁ generalizing l₂ with
  | nil => simp
  | cons a l₁ ih =>
    cases l₂ with
    | nil => simp
    | cons b l₂ =>
      rw [List.zip_cons_cons, List.map_cons, List.sum_cons, ih l₂]
      rw [show min (a :: l₁).length (b :: l₂).length = min l₁.length l₂.length + 1 by
        simp [Nat.succ_min_succ]]
      rw [List.range_succ_eq_map, List.map_cons, List.sum_cons, List.map_map]
      simp only [List.getD_cons_zero]
      have hmap : List.map ((fun i =>
            f ((a :: l₁).getD i default) ((b :: l₂).getD i default)) ∘ Nat.succ)
          (List.range (min l₁.length l₂.length)) =
          List.map (fun i => f (l₁.getD i default) (l₂.getD i default))
          (List.range (min l₁.length l₂.length)) := by
        apply List.map_congr_left
        intro i _
        simp [List.getD_cons_succ]
      rw [hmap]

/-- Helper: reading the tail at `i` is reading the list at `i+1`. -/
theorem getD_tail (l : List Seg) (i : ℕ) :
    l.tail.getD i default = l.getD (i + 1) default := by
  cases l with
  | nil => simp [List.getD_nil]
  | cons a l => simp [List.getD_cons_succ]

/-- Helper: reading the rotate-by-one at `i < n` is reading the list at
`(i+1) mod n`. -/
theorem getD_rotate_one (l : List Seg) (i : ℕ) (h : i < l.length) :
    (l.rotate 1).getD i default = l.getD ((i + 1) % l.length) default := by
  have h1 : i < (l.rotate 1).length := by rwa [List.length_rotate]
  have h2 : (i + 1) % l.length < l.length := Nat.mod_lt _ (by omega)
  rw [List.getD_eq_getElem _ _ h1, List.getD_eq_getElem _ _ h2, List.getElem_rotate]

/-- Helper: the dot product is symmetric. -/
theorem vdot_comm (v w : ℝ × ℝ) : vdot v w = vdot w v := by
  unfold vdot; ring

/-- Helper: `angle_between` is symmetric in its arguments. -/
theorem angle_between_comm (v w : ℝ × ℝ) : angle_between v w = angle_between w v := by
  unfold angle_between
  rw [vdot_comm, mul_comm]

/-- Helper: the source's per-junction contribution coincides with the
spec-worded pair score. -/
theorem contribution_eq_specPairScore (s t : Seg) :
    contribution s t = specPairScore s t := by
  have hang : junction_angle s t = specAngle s t := by
    unfold junction_angle specAngle
    rw [angle_between_comm]
    rfl
  unfold contribution specPairScore curvature_diff angle_diff specAngularDeviation
  rw [hang]

/-- Claim C1: for every subpath, after discarding zero-arclength segments,
the roughness score equals the spec's sum over adjacent segment pairs —
cyclic with one pair per segment when closed, successor pairs (one fewer
than segments) when open — of (1+|curvature difference|) times (angular
deviation from the nearest multiple of pi/2, divided by the summed
arclengths). -/
theorem wonkiness_eq_specRoughness (isClosed : Bool) (segs : List Seg) :
    wonkiness isClosed segs = specRoughness isClosed segs := by
  cases isClosed with
  | true =>
    have hpair : pairList true (nondegenerate segs) =
        (nondegenerate segs).zip ((nondegenerate segs).rotate 1) := rfl
    unfold wonkiness specRoughness
    rw [hpair, if_pos rfl, zip_map_sum]
    rw [show min (nondegenerate segs).length ((nondegenerate segs).rotate 1).length =
        (nondegenerate segs).length by rw [List.length_rotate, min_self]]
    congr 1
    apply List.map_congr_left
    intro i hi
    rw [getD_rotate_one _ _ (List.mem_range.mp hi), contribution_eq_specPairScore]
  | false =>
    have hpair : pairList false (nondegenerate segs) =
        (nondegenerate segs).zip (nondegenerate segs).tail := rfl
    unfold wonkiness specRoughness
    rw [hpair, if_neg (by simp), zip_map_sum]
    rw [show min (nondegenerate segs).length (nondegenerate segs).tail.length =
        (nondegenerate segs).length - 1 by rw [List.length_tail]; omega]
    congr 1
    apply List.map_congr_left
    intro i _
    rw [getD_tail, contribution_eq_specPairScore]

/-- Helper: the angle between the vectors (1,1) and (1,0) is pi/4. -/
theorem angle_between_diag_horiz : angle_between (1, 1) (1, 0) = Real.pi / 4 := by
  have h1 : vlength (1, 1) = Real.sqrt 2 := by
    unfold vlength
    norm_num
  have h2 : vlength (1, 0) = 1 := by
    unfold vlength
    norm_num
  have h3 : vdot (1, 1) (1, 0) = 1 := by
    unfold vdot
    norm_num
  unfold angle_between
  rw [h1, h2, h3, mul_one]
  have hs2 : Real.sqrt 2 * Real.sqrt 2 = 2 := Real.mul_self_sqrt (by norm_num)
  have hs2pos : (0 : ℝ) < Real.sqrt 2 := Real.sqrt_pos.mpr (by norm_num)
  have h4 : (1 : ℝ) / Real.sqrt 2 = Real.sqrt 2 / 2 := by
    rw [div_eq_div_iff hs2pos.ne' (by norm_num : (2 : ℝ) ≠ 0)] at *
    linarith [hs2]
  rw [h4, ← Real.cos_pi_div_four]
  exact Real.arccos_cos (by positivity) (by linarith [Real.pi_pos])

/-- Helper: a junction whose incoming tangent at t=0.95 is (1,0) and whose
outgoing tangent at t=0.05 is (1,1) has angular deviation pi/4. -/
theorem angle_diff_of_diag_tangents (s t : Seg) (h1 : s.tangent 0.95 = (1, 0))
    (h2 : t.tangent 0.05 = (1, 1)) : angle_diff s t = Real.pi / 4 := by
  have hja : junction_angle s t = Real.pi / 4 := by
    unfold junction_angle
    rw [h1, h2, angle_between_diag_horiz]
  unfold angle_diff
  rw [hja]
  have hq : Real.pi / 4 / (Real.pi / 2) = 1 / 2 := by
    field_simp
    ring
  rw [hq]
  rw [show round ((1 : ℝ) / 2) = 1 by norm_num [round_eq]]
  rw [show Real.pi / 4 - ((((1 : ℤ) : ℝ)) * (Real.pi / 2)) = -(Real.pi / 4) by
    push_cast; ring]
  rw [abs_neg, abs_of_nonneg (by positivity)]

/-- Helper: evaluating the tangents of the counterexample segment. -/
theorem cexSeg_tangent_end : cexSeg.tangent 0.95 = (1, 0) := by
  show (if (0.95 : ℝ) ≤ 1 / 2 then ((1 : ℝ), (1 : ℝ)) else (1, 0)) = (1, 0)
  rw [if_neg (by norm_num)]

/-- Helper: evaluating the tangents of the counterexample segment. -/
theorem cexSeg_tangent_start : cexSeg.tangent 0.05 = (1, 1) := by
  show (if (0.05 : ℝ) ≤ 1 / 2 then ((1 : ℝ), (1 : ℝ)) else (1, 0)) = (1, 1)
  rw [if_pos (by norm_num)]

/-- Counterexample to claim C3: a closed subpath retaining exactly ONE
non-degenerate segment (fewer than 2) has nonzero roughness, because the
cyclic pairing `zip (cycle().skip(1))` pairs the lone segment with itself
and its tangents at t=0.05 and t=0.95 differ by 45 degrees.  This is the
observable signature of a closed subpath consisting of a single cubic loop
plus a zero-length (filtered) closing line. -/
theorem wonkiness_single_closed_ne_zero :
    (nondegenerate [cexSeg]).length < 2 ∧ wonkiness true [cexSeg] ≠ 0 := by
  have harc : cexSeg.arclen = 1 := rfl
  have hfil : nondegenerate [cexSeg] = [cexSeg] := by
    unfold nondegenerate
    rw [List.filter_cons, decide_eq_true (show (0 : ℝ) < cexSeg.arclen by
      rw [harc]; norm_num)]
    simp
  constructor
  · rw [hfil]
    norm_num
  · unfold wonkiness
    rw [hfil]
    have hpair : pairList true [cexSeg] = [(cexSeg, cexSeg)] := by
      show [cexSeg].zip ([cexSeg].rotate 1) = [(cexSeg, cexSeg)]
      rw [List.rotate_singleton]
      rfl
    rw [hpair]
    simp only [List.map_cons, List.map_nil, List.sum_cons, List.sum_nil, add_zero]
    unfold contribution
    rw [angle_diff_of_diag_tangents cexSeg cexSeg cexSeg_tangent_end cexSeg_tangent_start]
    have hc : curvature_diff cexSeg cexSeg = 0 := by
      unfold curvature_diff
      show |(0 : ℝ) - 0| = 0
      norm_num
    rw [hc, harc]
    have : (0 : ℝ) < (1 + 0) * (Real.pi / 4 / (1 + 1)) := by positivity
    exact this.ne'

/-- Claim C3 (amended): an open subpath retaining fewer than 2 segments
after degenerate-segment filtering has roughness 0, and a closed subpath
retaining no segments has roughness 0; a closed subpath retaining exactly
one segment is paired with itself and may score nonzero. -/
theorem wonkiness_too_few_segments (isClosed : Bool) (segs : List Seg)
    (h : (nondegenerate segs).length < 2)
    (hclosed : isClosed = true → (nondegenerate segs).length = 0) :
    wonkiness isClosed segs = 0 := by
  unfold wonkiness
  cases isClosed with
  | true =>
    have h0 : nondegenerate segs = [] := List.length_eq_zero.mp (hclosed rfl)
    rw [h0]
    rfl
  | false =>
    rcases hln : nondegenerate segs with - | ⟨s, rest⟩
    · rfl
    · rcases rest with - | ⟨t, rest2⟩
      · rfl
      · rw [hln] at h
        simp at h
        omega

/-- Witness for the amended C3 at the empty open subpath. -/
theorem wonkiness_too_few_segments_witness : wonkiness false [] = 0 :=
  wonkiness_too_few_segments false [] (by norm_num [nondegenerate]) (by simp)

/-- Claim C7: a junction whose tangent angle is exactly an integer
multiple of pi/2 (collinear continuation, right-angle turn, or reversal)
contributes exactly 0, whatever the curvatures and arclengths. -/
theorem contribution_canonical_angle (seg next_seg : Seg)
    (h : ∃ n : ℤ, junction_angle seg next_seg = (n : ℝ) * (Real.pi / 2)) :
    contribution seg next_seg = 0 := by
  obtain ⟨n, hn⟩ := h
  have hzero : angle_diff seg next_seg = 0 := by
    unfold angle_diff
    rw [hn, mul_div_cancel_right₀ _ (show Real.pi / 2 ≠ 0 by positivity),
      round_intCast, sub_self, abs_zero]
  unfold contribution
  rw [hzero, zero_div, mul_zero]

/-- Witness for C7: a junction turning by exactly 90 degrees (incoming
tangent (1,0), outgoing tangent (0,1)) contributes 0. -/
theorem contribution_canonical_angle_witness : contribution segA segPerp = 0 := by
  apply contribution_canonical_angle segA segPerp
  refine ⟨1, ?_⟩
  show angle_between (0, 1) (1, 0) = ((1 : ℤ) : ℝ) * (Real.pi / 2)
  unfold angle_between
  rw [show vdot (0, 1) (1, 0) = 0 by unfold vdot; norm_num]
  rw [zero_div, Real.arccos_zero]
  push_cast
  ring

/-- Helper: the degenerate-segment filter commutes with scaling by a
positive factor, since scaling multiplies arclengths by `k > 0`. -/
theorem nondegenerate_map_scale (k : ℝ) (hk : 0 < k) (segs : List Seg) :
    nondegenerate (segs.map (scaleSeg k)) = (nondegenerate segs).map (scaleSeg k) := by
  unfold nondegenerate
  rw [List.filter_map]
  congr 1
  apply List.filter_congr
  intro s _
  simp only [Function.comp_apply]
  rw [decide_eq_decide]
  show 0 < k * s.arclen ↔ 0 < s.arclen
  exact mul_pos_iff_of_pos_left hk

/-- Helper: pair formation commutes with mapping a function over the
segment list. -/
theorem pairList_map_scale (k : ℝ) (isClosed : Bool) (l : List Seg) :
    pairList isClosed (l.map (scaleSeg k)) =
      (pairList isClosed l).map (Prod.map (scaleSeg k) (scaleSeg k)) := by
  cases isClosed with
  | true =>
    show (l.map (scaleSeg k)).zip ((l.map (scaleSeg k)).rotate 1) =
      (l.zip (l.rotate 1)).map (Prod.map (scaleSeg k) (scaleSeg k))
    rw [← List.map_rotate, List.zip_map]
  | false =>
    show (l.map (scaleSeg k)).zip (l.map (scaleSeg k)).tail =
      (l.zip l.tail).map (Prod.map (scaleSeg k) (scaleSeg k))
    rw [← List.map_tail, List.zip_map]

/-- Helper: scaling a vector scales its Euclidean length by the absolute
factor. -/
theorem vlength_scale (k : ℝ) (v : ℝ × ℝ) :
    vlength (k * v.1, k * v.2) = |k| * vlength v := by
  show Real.sqrt ((k * v.1) ^ 2 + (k * v.2) ^ 2) = |k| * Real.sqrt (v.1 ^ 2 + v.2 ^ 2)
  rw [show (k * v.1) ^ 2 + (k * v.2) ^ 2 = k ^ 2 * (v.1 ^ 2 + v.2 ^ 2) by ring]
  rw [Real.sqrt_mul (sq_nonneg k), Real.sqrt_sq_eq_abs]

/-- Helper: the junction angle is invariant under scaling both tangents by
a nonzero factor. -/
theorem junction_angle_scale (k : ℝ) (hk : k ≠ 0) (s t : Seg) :
    junction_angle (scaleSeg k s) (scaleSeg k t) = junction_angle s t := by
  show angle_between (k * (t.tangent 0.05).1, k * (t.tangent 0.05).2)
      (k * (s.tangent 0.95).1, k * (s.tangent 0.95).2) =
    angle_between (t.tangent 0.05) (s.tangent 0.95)
  unfold angle_between
  rw [vlength_scale, vlength_scale]
  congr 1
  have hd : vdot (k * (t.tangent 0.05).1, k * (t.tangent 0.05).2)
      (k * (s.tangent 0.95).1, k * (s.tangent 0.95).2) =
      k ^ 2 * vdot (t.tangent 0.05) (s.tangent 0.95) := by
    unfold vdot
    ring
  rw [hd]
  rw [show |k| * vlength (t.tangent 0.05) * (|k| * vlength (s.tangent 0.95)) =
      k ^ 2 * (vlength (t.tangent 0.05) * vlength (s.tangent 0.95)) by
    rw [show |k| * vlength (t.tangent 0.05) * (|k| * vlength (s.tangent 0.95)) =
      |k| ^ 2 * (vlength (t.tangent 0.05) * vlength (s.tangent 0.95)) by ring, sq_abs]]
  exact mul_div_mul_left _ _ (pow_ne_zero 2 hk)

/-- Helper: the angular deviation is invariant under scaling. -/
theorem angle_diff_scale (k : ℝ) (hk : k ≠ 0) (s t : Seg) :
    angle_diff (scaleSeg k s) (scaleSeg k t) = angle_diff s t := by
  unfold angle_diff
  rw [junction_angle_scale k hk]

/-- Helper: the curvature mismatch scales inversely. -/
theorem curvature_diff_scale (k : ℝ) (hk : 0 < k) (s t : Seg) :
    curvature_diff (scaleSeg k s) (scaleSeg k t) = curvature_diff s t / k := by
  show |s.curvature 0.95 / k - t.curvature 0.05 / k| =
    |s.curvature 0.95 - t.curvature 0.05| / k
  rw [div_sub_div_same, abs_div, abs_of_pos hk]

/-- Helper: members of the filtered list have positive arclength. -/
theorem arclen_pos_of_mem {s : Seg} {l : List Seg} (h : s ∈ nondegenerate l) :
    0 < s.arclen := by
  have h' : s ∈ List.filter (fun x => decide (0 < x.arclen)) l := h
  have h2 := List.of_mem_filter h'
  simp only [decide_eq_true_eq] at h2
  exact h2

/-- Helper: both components of every formed pair have positive arclength. -/
theorem mem_pairList_arclen {isClosed : Bool} {l : List Seg} {p : Seg × Seg}
    (hp : p ∈ pairList isClosed (nondegenerate l)) :
    0 < p.1.arclen ∧ 0 < p.2.arclen := by
  obtain ⟨s, t⟩ := p
  cases isClosed with
  | true =>
    have hp' : (s, t) ∈ (nondegenerate l).zip ((nondegenerate l).rotate 1) := hp
    obtain ⟨h1, h2⟩ := List.of_mem_zip hp'
    exact ⟨arclen_pos_of_mem h1, arclen_pos_of_mem (List.mem_rotate.mp h2)⟩
  | false =>
    have hp' : (s, t) ∈ (nondegenerate l).zip (nondegenerate l).tail := hp
    obtain ⟨h1, h2⟩ := List.of_mem_zip hp'
    exact ⟨arclen_pos_of_mem h1, arclen_pos_of_mem ((List.tail_sublist _).subset h2)⟩

/-- Helper: scaling by k > 1 never increases a junction's contribution. -/
theorem contribution_scale_le (k : ℝ) (hk : 1 < k) (s t : Seg)
    (hs : 0 < s.arclen) (ht : 0 < t.arclen) :
    contribution (scaleSeg k s) (scaleSeg k t) ≤ contribution s t := by
  have hk0 : 0 < k := lt_trans one_pos hk
  have hL : 0 < s.arclen + t.arclen := by linarith
  have hcd0 : 0 ≤ curvature_diff s t := abs_nonneg _
  have had0 : 0 ≤ angle_diff s t := abs_nonneg _
  unfold contribution
  rw [angle_diff_scale k hk0.ne', curvature_diff_scale k hk0]
  rw [show (scaleSeg k s).arclen + (scaleSeg k t).arclen =
      k * (s.arclen + t.arclen) from by show k * s.arclen + k * t.arclen = _; ring]
  have h1 : 1 + curvature_diff s t / k ≤ 1 + curvature_diff s t := by
    have := div_le_self hcd0 (le_of_lt hk)
    linarith
  have hle : s.arclen + t.arclen ≤ k * (s.arclen + t.arclen) :=
    le_mul_of_one_le_left (le_of_lt hL) (le_of_lt hk)
  have h2 : angle_diff s t / (k * (s.arclen + t.arclen)) ≤
      angle_diff s t / (s.arclen + t.arclen) := by
    rw [div_le_div_iff₀ (by nlinarith) hL]
    exact mul_le_mul_of_nonneg_left hle had0
  exact mul_le_mul h1 h2 (div_nonneg had0 (mul_nonneg hk0.le hL.le)) (by linarith)

/-- Helper: scaling by k > 1 strictly decreases a junction's contribution
when the angular deviation is nonzero. -/
theorem contribution_scale_lt (k : ℝ) (hk : 1 < k) (s t : Seg)
    (hs : 0 < s.arclen) (ht : 0 < t.arclen) (hne : angle_diff s t ≠ 0) :
    contribution (scaleSeg k s) (scaleSeg k t) < contribution s t := by
  have hk0 : 0 < k := lt_trans one_pos hk
  have hL : 0 < s.arclen + t.arclen := by linarith
  have hcd0 : 0 ≤ curvature_diff s t := abs_nonneg _
  have had : 0 < angle_diff s t := lt_of_le_of_ne (abs_nonneg _) (Ne.symm hne)
  unfold contribution
  rw [angle_diff_scale k hk0.ne', curvature_diff_scale k hk0]
  rw [show (scaleSeg k s).arclen + (scaleSeg k t).arclen =
      k * (s.arclen + t.arclen) from by show k * s.arclen + k * t.arclen = _; ring]
  have hkL : s.arclen + t.arclen < k * (s.arclen + t.arclen) := by nlinarith
  have h2 : angle_diff s t / (k * (s.arclen + t.arclen)) <
      angle_diff s t / (s.arclen + t.arclen) :=
    div_lt_div_of_pos_left had hL hkL
  have h1 : 1 + curvature_diff s t / k ≤ 1 + curvature_diff s t := by
    have := div_le_self hcd0 (le_of_lt hk)
    linarith
  have hpos : 0 < 1 + curvature_diff s t / k := by
    have : 0 ≤ curvature_diff s t / k := div_nonneg hcd0 (le_of_lt hk0)
    linarith
  calc (1 + curvature_diff s t / k) *
      (angle_diff s t / (k * (s.arclen + t.arclen)))
      < (1 + curvature_diff s t / k) *
        (angle_diff s t / (s.arclen + t.arclen)) := mul_lt_mul_of_pos_left h2 hpos
    _ ≤ (1 + curvature_diff s t) * (angle_diff s t / (s.arclen + t.arclen)) :=
        mul_le_mul_of_nonneg_right h1 (div_nonneg had.le hL.le)

/-- Claim C9: uniformly scaling a subpath's coordinates by k > 1 strictly
decreases its roughness whenever some junction has nonzero angular
deviation — shorter geometrically-similar subpaths are strictly rougher
than longer ones. -/
theorem wonkiness_scale_strict (k : ℝ) (isClosed : Bool) (segs : List Seg)
    (hk : 1 < k)
    (h : ∃ p ∈ pairList isClosed (nondegenerate segs), angle_diff p.1 p.2 ≠ 0) :
    wonkiness isClosed (segs.map (scaleSeg k)) < wonkiness isClosed segs := by
  have hk0 : 0 < k := lt_trans one_pos hk
  unfold wonkiness
  rw [nondegenerate_map_scale k hk0, pairList_map_scale, List.map_map]
  have hfun : ((fun p : Seg × Seg => contribution p.1 p.2) ∘
      Prod.map (scaleSeg k) (scaleSeg k)) =
      fun p : Seg × Seg => contribution (scaleSeg k p.1) (scaleSeg k p.2) := by
    funext p
    rfl
  rw [hfun]
  apply List.sum_lt_sum
  · intro p hp
    obtain ⟨h1, h2⟩ := mem_pairList_arclen hp
    exact contribution_scale_le k hk p.1 p.2 h1 h2
  · obtain ⟨p, hp, hne⟩ := h
    refine ⟨p, hp, ?_⟩
    obtain ⟨h1, h2⟩ := mem_pairList_arclen hp
    exact contribution_scale_lt k hk p.1 p.2 h1 h2 hne

/-- Witness for C9: a two-segment open subpath with a 45-degree junction,
scaled by 2. -/
theorem wonkiness_scale_strict_witness :
    wonkiness false ([segA, segB].map (scaleSeg 2)) < wonkiness false [segA, segB] := by
  apply wonkiness_scale_strict 2 false [segA, segB] (by norm_num)
  refine ⟨(segA, segB), ?_, ?_⟩
  · have hfil : nondegenerate [segA, segB] = [segA, segB] := by
      unfold nondegenerate
      rw [List.filter_cons, List.filter_cons,
        decide_eq_true (show (0 : ℝ) < segA.arclen from by norm_num [segA]),
        decide_eq_true (show (0 : ℝ) < segB.arclen from by norm_num [segB])]
      simp
    rw [hfil]
    show (segA, segB) ∈ [(segA, segB)]
    exact List.mem_singleton.mpr rfl
  · show angle_diff segA segB ≠ 0
    rw [angle_diff_of_diag_tangents segA segB rfl rfl]
    positivity
